import Mathlib

/-!
# Verification of the hybrid property-retrieval engine (`Backend/retrieval.py`)

Shallow embedding of `find_similar_properties` and the `__main__` flow of
`Backend/retrieval.py`, together with proofs settling the frozen claims about
the natural-language specification.

Modelling conventions:
* A pandas row of the `properties` table is a `Listing`; after
  `load_cleaned_data` the `amenities` column holds a list of strings and
  `price`/`size` are numeric.  Machine floats are modelled as exact rationals
  (`ℚ`); float rounding is out of scope.
* A Python value returned by `find_similar_properties` is a `PyResult`:
  `.str` for the bare message strings of the empty-filter branches, `.table`
  for the projected `DataFrame`, and `.exn` for an uncaught Python exception
  (e.g. the `ValueError` raised by `TfidfVectorizer.fit_transform` on an
  empty vocabulary, or `AttributeError`/`TypeError` when `None` query fields
  reach `.lower()` / `* 1.05`).
* `sklearn.TfidfVectorizer` (default settings) lowercases, tokenizes with the
  pattern `\w\w+` (runs of word characters of length ≥ 2; modelled for the
  ASCII alphabet), weights each term by `tf * idf` with
  `idf = ln((1+n)/(1+df)) + 1 ≥ 1`, and L2-normalizes every row.  The `idf`
  weight is transcendental, so it is kept as an abstract parameter
  `idf : ℕ → ℕ → ℚ` (number of documents, document frequency); every claim
  holds for an arbitrary (positive, where relevant) weighting.
* `faiss.IndexFlatL2.search` returns the `k` nearest vectors by squared L2
  distance, ascending, padding with `-1` when fewer than `k` vectors exist;
  `pandas.DataFrame.iloc[-1]` turns that padding into the last row.  On
  L2-normalized rows the squared distance to the query is
  `d = 2 - 2·cos`, and with the conventions sklearn uses for zero rows the
  quantity `score = (2 - d)² / 4` (which is `cos²` for nonzero rows, `1` when
  both rows are zero and `1/4` when exactly one is zero) is an exactly
  rational, strictly decreasing reparameterization of `d`.  Ascending
  distance is therefore modelled as descending `score`, with ties broken by
  original candidate position (first occurrence).
-/

/-- A normalized listing row, with the columns `find_similar_properties`
touches.  `amenities` is the list produced by `load_cleaned_data`'s split. -/
structure Listing where
  link : String
  size : Int
  price : ℚ
  location : String
  amenities : List String
  description : String
  building_name : String
deriving DecidableEq

/-- The projected row returned on success: exactly the seven columns selected
at the end of `find_similar_properties` (the derived `amenities_str` column is
not among them). -/
structure ResultRow where
  link : String
  size : Int
  price : ℚ
  location : String
  amenities : List String
  description : String
  building_name : String
deriving DecidableEq

/-- Projection of a listing onto the seven returned columns. -/
def projectRow (l : Listing) : ResultRow :=
  ⟨l.link, l.size, l.price, l.location, l.amenities, l.description, l.building_name⟩

/-- A Python value produced by the retrieval entry point: a bare message
string, a projected table, or an uncaught exception. -/
inductive PyResult where
  | str (s : String)
  | table (rows : List ResultRow)
  | exn (e : String)
deriving DecidableEq

/-- Pandas elementwise `==` between the integer `size` column and the Python
query value: comparison with `None` is `False` everywhere. -/
def optSizeEq (us : Option Int) (v : Int) : Bool :=
  match us with
  | some s => v == s
  | none => false

/-- `df[df["size"] == user_size]`. -/
def sizeStage (df : List Listing) (us : Option Int) : List Listing :=
  df.filter (fun l => optSizeEq us l.size)

/-- Python's `str.lower()` (characterwise; kernel-reducible, unlike the
well-founded-recursive `String.toLower`). -/
def pyLower (s : String) : String :=
  ⟨s.data.map Char.toLower⟩

/-- `listStartsWith s p` : `p` is a prefix of `s` (over characters). -/
def listStartsWith : List Char → List Char → Bool
  | _, [] => true
  | [], _ :: _ => false
  | c :: cs, p :: ps => c == p && listStartsWith cs ps

/-- Substring containment over characters.  `pandas.Series.str.contains`
treats its pattern as a regular expression by default; on patterns without
regex metacharacters (the only ones used in the claims) this coincides with
literal substring search, which is what is modelled. -/
def strContainsSub : List Char → List Char → Bool
  | [], p => listStartsWith [] p
  | s@(_ :: cs), p => listStartsWith s p || strContainsSub cs p

/-- `df_filtered["location"].str.contains(user_location.lower(), na=False)`
applied to one row (the stored `location` is never NaN in the model). -/
def locContains (stored pat : String) : Bool :=
  strContainsSub stored.toList pat.toList

/-- `drop_duplicates(subset=["link"], keep="first")`: keep each row whose
`link` has not been seen before. -/
def dropDupLinksAux (seen : List String) : List Listing → List Listing
  | [] => []
  | x :: xs =>
    if x.link ∈ seen then dropDupLinksAux seen xs
    else x :: dropDupLinksAux (x.link :: seen) xs

/-- Deduplication by the `link` column, first occurrence wins. -/
def dropDupLinks (l : List Listing) : List Listing :=
  dropDupLinksAux [] l

/-- The location step: `pd.concat([exact_match, partial_match])` followed by
`drop_duplicates(subset=["link"], keep="first")`, with `exact_match` first. -/
def locationStage (df1 : List Listing) (loc : String) : List Listing :=
  let lloc := pyLower loc
  let exact_match := df1.filter (fun l => l.location == lloc)
  let partial_match := df1.filter (fun l => locContains l.location lloc)
  dropDupLinks (exact_match ++ partial_match)

/-!  ### Exact fraction arithmetic

The standard library's `Rat` operations are `@[irreducible]`, so concrete
pipeline runs could not be checked by the kernel if the model computed with
`ℚ` directly.  `Frac` is an unnormalized exact fraction (no gcd reduction);
every `Frac` the pipeline builds has a positive denominator, and the
`toRat` lemmas below identify each operation with the corresponding exact
rational operation, so all claim statements can speak `ℚ`. -/

structure Frac where
  num : Int
  den : Int
deriving DecidableEq

/-- The exact rational value of a fraction. -/
def Frac.toRat (a : Frac) : ℚ :=
  (a.num : ℚ) / (a.den : ℚ)

def Frac.ofRat (q : ℚ) : Frac :=
  ⟨q.num, (q.den : Int)⟩

def Frac.ofNat (n : ℕ) : Frac :=
  ⟨(n : Int), 1⟩

def Frac.mul (a b : Frac) : Frac :=
  ⟨a.num * b.num, a.den * b.den⟩

def Frac.add (a b : Frac) : Frac :=
  ⟨a.num * b.den + b.num * a.den, a.den * b.den⟩

def Frac.div (a b : Frac) : Frac :=
  ⟨a.num * b.den, a.den * b.num⟩

def Frac.sum (l : List Frac) : Frac :=
  l.foldr Frac.add ⟨0, 1⟩

/-- Zero test; agrees with `toRat = 0` when the denominator is nonzero. -/
def Frac.isZero (a : Frac) : Bool :=
  a.num == 0

/-- `≤` by cross-multiplication; agrees with `toRat ≤ toRat` when both
denominators are positive. -/
def Frac.ble (a b : Frac) : Bool :=
  decide (a.num * b.den ≤ b.num * a.den)

/-- `<` by cross-multiplication; agrees with `toRat < toRat` when both
denominators are positive. -/
def Frac.blt (a b : Frac) : Bool :=
  decide (a.num * b.den < b.num * a.den)

/-- Equality by cross-multiplication; agrees with `toRat = toRat` when both
denominators are nonzero. -/
def Frac.beq (a b : Frac) : Bool :=
  a.num * b.den == b.num * a.den

/-- `df_filtered["price"] <= user_price * 1.05` for one row, computed exactly
by cross-multiplication (`priceLe_iff` identifies it with the rational
inequality). -/
def priceLe (price p : ℚ) : Bool :=
  (Frac.ofRat price).ble ((Frac.ofRat p).mul ⟨21, 20⟩)

/-- `df_filtered[df_filtered["price"] <= user_price * 1.05]`. -/
def priceStage (df2 : List Listing) (p : ℚ) : List Listing :=
  df2.filter (fun l => priceLe l.price p)

/-- A word character of sklearn's default token pattern `(?u)\b\w\w+\b`
(restricted to ASCII). -/
def isWordChar (c : Char) : Bool :=
  c.isAlphanum || c == '_'

/-- Splits a character list into its maximal runs of word characters; the
accumulator holds the (reversed) current run. -/
def wordRunsAux : List Char → List Char → List (List Char)
  | [], acc => if acc = [] then [] else [acc.reverse]
  | c :: cs, acc =>
    if isWordChar c then wordRunsAux cs (c :: acc)
    else if acc = [] then wordRunsAux cs [] else acc.reverse :: wordRunsAux cs []

/-- sklearn's default tokenization: lowercase, then keep maximal runs of word
characters of length at least 2. -/
def tokenize (s : String) : List String :=
  ((wordRunsAux (pyLower s).data []).map (fun cs => String.mk cs)).filter
    (fun t => t.length ≥ 2)

/-- `" ".join(...)`: the derived `amenities_str` of a row, and the query's
joined amenity string. -/
def joinAmen (xs : List String) : String :=
  String.intercalate " " xs

/-- The vectorizer's corpus, already tokenized: the `amenities_str` of every
surviving candidate, then the query's joined amenity string as the last
document (so its vocabulary contributes to the IDF computation). -/
def corpusOf (df3 : List Listing) (ua : List String) : List (List String) :=
  df3.map (fun l => tokenize (joinAmen l.amenities)) ++ [tokenize (joinAmen ua)]

/-- The distinct-token vocabulary of the corpus. -/
def vocabOf (corpus : List (List String)) : List String :=
  corpus.flatten.dedup

/-- Document frequency of a term in the corpus. -/
def docFreq (corpus : List (List String)) (t : String) : ℕ :=
  (corpus.filter (fun d => d.contains t)).length

/-- The TF-IDF weight of term `t` in a document `d` of the corpus:
term count times the (abstract) idf weight of the term.  sklearn's concrete
weight is `ln((1 + n)/(1 + df)) + 1`. -/
def tfidfWt (idf : ℕ → ℕ → ℚ) (corpus : List (List String)) (d : List String)
    (t : String) : Frac :=
  (Frac.ofNat (d.count t)).mul (Frac.ofRat (idf corpus.length (docFreq corpus t)))

/-- Inner product of the raw (un-normalized) TF-IDF vectors of two documents,
taken over the vocabulary. -/
def innerW (idf : ℕ → ℕ → ℚ) (corpus : List (List String)) (d e : List String) : Frac :=
  Frac.sum ((vocabOf corpus).map
    (fun t => (tfidfWt idf corpus d t).mul (tfidfWt idf corpus e t)))

/-- The exactly-rational, strictly decreasing reparameterization
`score = (2 - d)² / 4` of the squared L2 distance `d` between the
L2-normalized TF-IDF rows of `q` and `c` (see the header): `cos²` when both
raw vectors are nonzero, `1` when both are zero (`d = 0`), `1/4` when exactly
one is zero (`d = 1`).  Larger score = smaller distance. -/
def simScore (idf : ℕ → ℕ → ℚ) (corpus : List (List String)) (q c : List String) : Frac :=
  if (innerW idf corpus q q).isZero then
    (if (innerW idf corpus c c).isZero then ⟨1, 1⟩ else ⟨1, 4⟩)
  else if (innerW idf corpus c c).isZero then ⟨1, 4⟩
  else
    ((innerW idf corpus q c).mul (innerW idf corpus q c)).div
      ((innerW idf corpus q q).mul (innerW idf corpus c c))

/-- The tokenized candidate documents, in filter order. -/
def docTokens (df3 : List Listing) : List (List String) :=
  df3.map (fun l => tokenize (joinAmen l.amenities))

/-- Score of candidate `i` against the query. -/
def candScore (idf : ℕ → ℕ → ℚ) (df3 : List Listing) (ua : List String) (i : ℕ) : Frac :=
  simScore idf (corpusOf df3 ua) (tokenize (joinAmen ua)) ((docTokens df3).getD i [])

/-- The order in which `IndexFlatL2.search` reports candidates: strictly
smaller distance (strictly larger score) first, ties by original candidate
position. -/
def rankRel (s : ℕ → Frac) (i j : ℕ) : Prop :=
  (s j).blt (s i) = true ∨ ((s i).beq (s j) = true ∧ i ≤ j)

instance rankRelDecidable (s : ℕ → Frac) : DecidableRel (rankRel s) :=
  fun i j =>
    inferInstanceAs (Decidable ((s j).blt (s i) = true ∨ ((s i).beq (s j) = true ∧ i ≤ j)))

/-- The same ranking order expressed on exact rational score values: ascending
L2 distance is descending `toRat` score, ties broken by original filter
position. -/
def rankRelQ (s : ℕ → Frac) (i j : ℕ) : Prop :=
  (s j).toRat < (s i).toRat ∨ ((s i).toRat = (s j).toRat ∧ i ≤ j)

/-- A placeholder row: `pandas.iloc` never actually falls back to it because
every produced index is in range. -/
def dummyListing : Listing :=
  ⟨"", 0, 0, "", [], "", ""⟩

/-- The index list `indices[0]` of `index.search(user_embedding, 10)`, after
`iloc`'s interpretation of the `-1` padding: the candidate positions sorted by
ascending distance, truncated to 10, then (when fewer than 10 candidates
exist) padded with `-1`, which `iloc` resolves to the last position. -/
def rankedIndices (idf : ℕ → ℕ → ℚ) (df3 : List Listing) (ua : List String) : List ℕ :=
  (List.insertionSort (rankRel (candScore idf df3 ua)) (List.range df3.length)).take 10
    ++ List.replicate (10 - df3.length) (df3.length - 1)

/-- `df_filtered.iloc[indices[0]]`. -/
def rankedListings (idf : ℕ → ℕ → ℚ) (df3 : List Listing) (ua : List String) :
    List Listing :=
  (rankedIndices idf df3 ua).map (fun i => df3.getD i dummyListing)

/-- `find_similar_properties(df, user_size, user_price, user_location,
user_amenities)`.  Query fields are `Option`-typed because the `__main__` flow
feeds it the raw extraction dict, whose fields may be `None`; the stages are
reached exactly in the source's order, so a `None` field only raises where the
source would (`None.lower()`, `None * 1.05`). -/
def find_similar_properties (idf : ℕ → ℕ → ℚ) (df : List Listing)
    (userSize : Option Int) (userPrice : Option ℚ) (userLocation : Option String)
    (userAmenities : List String) : PyResult :=
  let df1 := sizeStage df userSize
  if df1 = [] then .str "No properties found with the given size."
  else
    match userLocation with
    | none => .exn "AttributeError: NoneType object has no attribute lower"
    | some loc =>
      let df2 := locationStage df1 loc
      if df2 = [] then .str "No properties found in the specified location."
      else
        match userPrice with
        | none => .exn "TypeError: unsupported operand types for NoneType"
        | some p =>
          let df3 := priceStage df2 p
          if df3 = [] then .str "No properties found within the price range."
          else if vocabOf (corpusOf df3 userAmenities) = [] then
            .exn "ValueError: empty vocabulary"
          else
            .table (((dropDupLinks (rankedListings idf df3 userAmenities)).take 5).map
              projectRow)

/-- The structured extraction produced by `extract_keywords_from_text`. -/
structure Extracted where
  size : Option Int
  price : Option ℚ
  location : Option String
  amenities : List String

/-- Modelled from the source: the fallback dict returned by
`extract_keywords_from_text` when no JSON object is found in the model
response — `{"size": None, "price": None, "location": None, "amenities": []}`. -/
def parseFailureExtraction : Extracted :=
  ⟨none, none, none, []⟩

/-- The `__main__` flow from the extraction on: the extracted fields are
passed straight to `find_similar_properties` with no validity check. -/
def mainRetrieve (idf : ℕ → ℕ → ℚ) (df : List Listing) (e : Extracted) : PyResult :=
  find_similar_properties idf df e.size e.price e.location e.amenities

/-! ### Concrete data for witnesses and counterexamples -/

/-- A concrete positive idf weighting used when running the pipeline on
concrete inputs (the claims hold for every positive weighting). -/
def idfConst : ℕ → ℕ → ℚ := fun _ _ => 1

/-- A listing priced exactly at `120 × 1.05 = 126`, exercising the closed
price bound. -/
def wListingGym : Listing := ⟨"w-gym", 2, 126, "mumbai", ["gym"], "", ""⟩

def wListingPool : Listing := ⟨"w-pool", 2, 100, "mumbai", ["pool"], "", ""⟩

/-- A listing with an empty amenity list: its joined amenity string has no
tokens, so its TF-IDF row is the zero vector. -/
def wListingNoAmen : Listing := ⟨"w-none", 2, 100, "mumbai", [], "", ""⟩

/-! ### Bridging lemmas: `Frac` computes exact rational arithmetic -/

theorem Frac.toRat_mul (a b : Frac) : (a.mul b).toRat = a.toRat * b.toRat := by
  simp only [Frac.mul, Frac.toRat, Int.cast_mul]
  rw [div_mul_div_comm]

theorem Frac.toRat_add (a b : Frac) (ha : a.den ≠ 0) (hb : b.den ≠ 0) :
    (a.add b).toRat = a.toRat + b.toRat := by
  have ha' : (a.den : ℚ) ≠ 0 := by exact_mod_cast ha
  have hb' : (b.den : ℚ) ≠ 0 := by exact_mod_cast hb
  simp only [Frac.add, Frac.toRat, Int.cast_add, Int.cast_mul]
  rw [div_add_div _ _ ha' hb']
  ring_nf

theorem Frac.toRat_ofRat (q : ℚ) : (Frac.ofRat q).toRat = q := by
  simp [Frac.ofRat, Frac.toRat, Rat.num_div_den]

theorem Frac.ble_iff {a b : Frac} (ha : 0 < a.den) (hb : 0 < b.den) :
    a.ble b = true ↔ a.toRat ≤ b.toRat := by
  have ha' : (0 : ℚ) < (a.den : ℚ) := by exact_mod_cast ha
  have hb' : (0 : ℚ) < (b.den : ℚ) := by exact_mod_cast hb
  simp only [Frac.ble, Frac.toRat, decide_eq_true_eq,
    div_le_div_iff₀ ha' hb']
  constructor
  · intro h; exact_mod_cast h
  · intro h; exact_mod_cast h

theorem Frac.blt_iff {a b : Frac} (ha : 0 < a.den) (hb : 0 < b.den) :
    a.blt b = true ↔ a.toRat < b.toRat := by
  have ha' : (0 : ℚ) < (a.den : ℚ) := by exact_mod_cast ha
  have hb' : (0 : ℚ) < (b.den : ℚ) := by exact_mod_cast hb
  simp only [Frac.blt, Frac.toRat, decide_eq_true_eq,
    div_lt_div_iff₀ ha' hb']
  constructor
  · intro h; exact_mod_cast h
  · intro h; exact_mod_cast h

theorem Frac.beq_iff {a b : Frac} (ha : 0 < a.den) (hb : 0 < b.den) :
    a.beq b = true ↔ a.toRat = b.toRat := by
  have ha' : (a.den : ℚ) ≠ 0 := by positivity
  have hb' : (b.den : ℚ) ≠ 0 := by positivity
  simp only [Frac.beq, Frac.toRat, beq_iff_eq, div_eq_div_iff ha' hb']
  constructor
  · intro h; exact_mod_cast h
  · intro h; exact_mod_cast h

theorem Frac.isZero_iff {a : Frac} (ha : a.den ≠ 0) :
    a.isZero = true ↔ a.toRat = 0 := by
  have ha' : (a.den : ℚ) ≠ 0 := by exact_mod_cast ha
  simp [Frac.isZero, Frac.toRat, div_eq_zero_iff, ha']

theorem priceLe_iff (price p : ℚ) :
    priceLe price p = true ↔ price ≤ p * (21 / 20 : ℚ) := by
  have h1 : (0 : Int) < (Frac.ofRat price).den := by
    simp [Frac.ofRat]; exact_mod_cast price.den_pos
  have h2 : (0 : Int) < ((Frac.ofRat p).mul ⟨21, 20⟩).den := by
    have : (0 : Int) < (p.den : Int) := by exact_mod_cast p.den_pos
    simp [Frac.ofRat, Frac.mul]; positivity
  rw [priceLe, Frac.ble_iff h1 h2, Frac.toRat_ofRat, Frac.toRat_mul,
    Frac.toRat_ofRat]
  norm_num [Frac.toRat]

/-! ### Positivity of the denominators produced by the score pipeline -/

theorem Frac.sum_den_pos {l : List Frac} (h : ∀ f ∈ l, 0 < f.den) :
    0 < (Frac.sum l).den := by
  induction l with
  | nil => simp [Frac.sum]
  | cons a t ih =>
    have ha := h a (by simp)
    have ht := ih (fun f hf => h f (List.mem_cons_of_mem a hf))
    simpa [Frac.sum, Frac.add] using mul_pos ha ht

theorem Frac.sum_num_nonneg {l : List Frac} (h : ∀ f ∈ l, 0 ≤ f.num ∧ 0 < f.den) :
    0 ≤ (Frac.sum l).num := by
  induction l with
  | nil => simp [Frac.sum]
  | cons a t ih =>
    have ha := h a (by simp)
    have ht : ∀ f ∈ t, 0 ≤ f.num ∧ 0 < f.den := fun f hf => h f (List.mem_cons_of_mem a hf)
    have htden : 0 < (Frac.sum t).den := Frac.sum_den_pos (fun f hf => (ht f hf).2)
    have htnum := ih ht
    simp only [Frac.sum, List.foldr_cons]
    have : (0 : Int) ≤ a.num * (Frac.sum t).den + (Frac.sum t).num * a.den :=
      add_nonneg (mul_nonneg ha.1 htden.le) (mul_nonneg htnum ha.2.le)
    simpa [Frac.add, Frac.sum] using this

theorem Frac.sum_num_pos {l : List Frac} (h : ∀ f ∈ l, 0 ≤ f.num ∧ 0 < f.den)
    (hx : ∃ f ∈ l, 0 < f.num) : 0 < (Frac.sum l).num := by
  induction l with
  | nil => simp at hx
  | cons a t ih =>
    have ha := h a (by simp)
    have ht : ∀ f ∈ t, 0 ≤ f.num ∧ 0 < f.den := fun f hf => h f (List.mem_cons_of_mem a hf)
    have htden : 0 < (Frac.sum t).den := Frac.sum_den_pos (fun f hf => (ht f hf).2)
    have htnum : 0 ≤ (Frac.sum t).num := Frac.sum_num_nonneg ht
    simp only [Frac.sum, List.foldr_cons]
    rcases hx with ⟨f, hf, hfpos⟩
    rcases List.mem_cons.mp hf with rfl | hft
    · have : (0 : Int) < f.num * (Frac.sum t).den + (Frac.sum t).num * f.den :=
        add_pos_of_pos_of_nonneg (mul_pos hfpos htden) (mul_nonneg htnum ha.2.le)
      simpa [Frac.add, Frac.sum] using this
    · have hts : 0 < (Frac.sum t).num := ih ht ⟨f, hft, hfpos⟩
      have : (0 : Int) < a.num * (Frac.sum t).den + (Frac.sum t).num * a.den :=
        add_pos_of_nonneg_of_pos (mul_nonneg ha.1 htden.le) (mul_pos hts ha.2)
      simpa [Frac.add, Frac.sum] using this

theorem Frac.sum_num_eq_zero {l : List Frac} (h : ∀ f ∈ l, f.num = 0) :
    (Frac.sum l).num = 0 := by
  induction l with
  | nil => simp [Frac.sum]
  | cons a t ih =>
    have ha := h a (by simp)
    have ht := ih (fun f hf => h f (List.mem_cons_of_mem a hf))
    simp only [Frac.sum, List.foldr_cons] at ht ⊢
    simp [Frac.add, ha, ht]

theorem tfidfWt_den_pos (idf : ℕ → ℕ → ℚ) (corpus : List (List String))
    (d : List String) (t : String) : 0 < (tfidfWt idf corpus d t).den := by
  have : (0 : Int) < ((idf corpus.length (docFreq corpus t)).den : Int) := by
    exact_mod_cast (idf corpus.length (docFreq corpus t)).den_pos
  simpa [tfidfWt, Frac.mul, Frac.ofNat, Frac.ofRat] using this

theorem innerW_den_pos (idf : ℕ → ℕ → ℚ) (corpus : List (List String))
    (d e : List String) : 0 < (innerW idf corpus d e).den := by
  apply Frac.sum_den_pos
  intro f hf
  rcases List.mem_map.mp hf with ⟨t, _, rfl⟩
  simpa [Frac.mul] using
    mul_pos (tfidfWt_den_pos idf corpus d t) (tfidfWt_den_pos idf corpus e t)

theorem innerW_self_num_nonneg (idf : ℕ → ℕ → ℚ) (corpus : List (List String))
    (d : List String) : 0 ≤ (innerW idf corpus d d).num := by
  apply Frac.sum_num_nonneg
  intro f hf
  rcases List.mem_map.mp hf with ⟨t, _, rfl⟩
  refine ⟨by simpa [Frac.mul] using mul_self_nonneg (tfidfWt idf corpus d t).num, ?_⟩
  simpa [Frac.mul] using
    mul_pos (tfidfWt_den_pos idf corpus d t) (tfidfWt_den_pos idf corpus d t)

theorem simScore_den_pos (idf : ℕ → ℕ → ℚ) (corpus : List (List String))
    (q c : List String) : 0 < (simScore idf corpus q c).den := by
  unfold simScore
  cases hq : (innerW idf corpus q q).isZero
  case true =>
    cases hc : (innerW idf corpus c c).isZero <;> simp [hq, hc]
  case false =>
    cases hc : (innerW idf corpus c c).isZero
    case true => simp [hq, hc]
    case false =>
      simp only [hq, hc, Bool.false_eq_true, if_false]
      have hq' : (innerW idf corpus q q).num ≠ 0 := by
        intro h0
        rw [Frac.isZero] at hq
        simp [h0] at hq
      have hc' : (innerW idf corpus c c).num ≠ 0 := by
        intro h0
        rw [Frac.isZero] at hc
        simp [h0] at hc
      have hqnum : 0 < (innerW idf corpus q q).num :=
        lt_of_le_of_ne (innerW_self_num_nonneg idf corpus q) (Ne.symm hq')
      have hcnum : 0 < (innerW idf corpus c c).num :=
        lt_of_le_of_ne (innerW_self_num_nonneg idf corpus c) (Ne.symm hc')
      have hden := innerW_den_pos idf corpus q c
      simpa [Frac.div, Frac.mul] using
        mul_pos (mul_pos hden hden) (mul_pos hqnum hcnum)

theorem candScore_den_pos (idf : ℕ → ℕ → ℚ) (df3 : List Listing)
    (ua : List String) (i : ℕ) : 0 < (candScore idf df3 ua i).den :=
  simScore_den_pos idf (corpusOf df3 ua) (tokenize (joinAmen ua))
    ((docTokens df3).getD i [])

/-! ### Properties of the `drop_duplicates(subset=["link"], keep="first")` model -/

theorem dropDupLinksAux_sublist : ∀ (l : List Listing) (seen : List String),
    (dropDupLinksAux seen l).Sublist l
  | [], _ => List.Sublist.refl []
  | x :: xs, seen => by
    unfold dropDupLinksAux
    by_cases hx : x.link ∈ seen
    · simp only [hx, if_true]
      exact (dropDupLinksAux_sublist xs seen).cons x
    · simp only [hx, if_false]
      exact (dropDupLinksAux_sublist xs (x.link :: seen)).cons₂ x

theorem dropDupLinks_sublist (l : List Listing) : (dropDupLinks l).Sublist l :=
  dropDupLinksAux_sublist l []

theorem dropDupLinksAux_links_nodup : ∀ (l : List Listing) (seen : List String),
    ((dropDupLinksAux seen l).map Listing.link).Nodup ∧
      ∀ x ∈ dropDupLinksAux seen l, x.link ∉ seen
  | [], _ => by simp [dropDupLinksAux]
  | x :: xs, seen => by
    unfold dropDupLinksAux
    by_cases hx : x.link ∈ seen
    · simpa only [hx, if_true] using dropDupLinksAux_links_nodup xs seen
    · simp only [hx, if_false]
      obtain ⟨hnodup, hseen⟩ := dropDupLinksAux_links_nodup xs (x.link :: seen)
      refine ⟨?_, ?_⟩
      · simp only [List.map_cons, List.nodup_cons]
        exact ⟨fun hmem => by
          rcases List.mem_map.mp hmem with ⟨y, hy, hlink⟩
          exact hseen y hy (by simp [hlink]), hnodup⟩
      · intro y hy
        rcases List.mem_cons.mp hy with rfl | hy'
        · exact hx
        · exact fun hmem => hseen y hy' (List.mem_cons_of_mem _ hmem)

theorem dropDupLinks_links_nodup (l : List Listing) :
    ((dropDupLinks l).map Listing.link).Nodup :=
  (dropDupLinksAux_links_nodup l []).1

theorem mem_dropDupLinksAux_of_first : ∀ (l₁ l₂ : List Listing) (x : Listing)
    (seen : List String), x.link ∉ seen → x.link ∉ l₁.map Listing.link →
    x ∈ dropDupLinksAux seen (l₁ ++ x :: l₂)
  | [], l₂, x, seen, hseen, _ => by
    simp only [List.nil_append]
    unfold dropDupLinksAux
    simp [hseen]
  | y :: l₁, l₂, x, seen, hseen, hl₁ => by
    have hxy : x.link ≠ y.link := by
      intro h
      exact hl₁ (by simp [h])
    have hl₁' : x.link ∉ l₁.map Listing.link := fun h => hl₁ (List.mem_cons_of_mem _ h)
    simp only [List.cons_append]
    unfold dropDupLinksAux
    by_cases hy : y.link ∈ seen
    · simp only [hy, if_true]
      exact mem_dropDupLinksAux_of_first l₁ l₂ x seen hseen hl₁'
    · simp only [hy, if_false]
      refine List.mem_cons_of_mem y ?_
      refine mem_dropDupLinksAux_of_first l₁ l₂ x (y.link :: seen) ?_ hl₁'
      intro h
      rcases List.mem_cons.mp h with h' | h'
      · exact hxy h'
      · exact hseen h'

theorem dropDupLinksAux_nil_of_seen : ∀ (l : List Listing) (seen : List String),
    (∀ y ∈ l, y.link ∈ seen) → dropDupLinksAux seen l = []
  | [], _, _ => rfl
  | x :: xs, seen, h => by
    unfold dropDupLinksAux
    simp only [h x (by simp), if_true]
    exact dropDupLinksAux_nil_of_seen xs seen (fun y hy => h y (List.mem_cons_of_mem x hy))

theorem dropDupLinksAux_append_absorb : ∀ (l l₂ : List Listing) (seen : List String),
    (∀ y ∈ l₂, y.link ∈ l.map Listing.link ∨ y.link ∈ seen) →
    dropDupLinksAux seen (l ++ l₂) = dropDupLinksAux seen l
  | [], l₂, seen, h => by
    simp only [List.nil_append]
    have hnil : dropDupLinksAux seen ([] : List Listing) = [] := rfl
    rw [hnil]
    refine dropDupLinksAux_nil_of_seen l₂ seen (fun y hy => ?_)
    rcases h y hy with h' | h'
    · simp at h'
    · exact h'
  | x :: xs, l₂, seen, h => by
    simp only [List.cons_append]
    unfold dropDupLinksAux
    by_cases hx : x.link ∈ seen
    · simp only [hx, if_true]
      refine dropDupLinksAux_append_absorb xs l₂ seen (fun y hy => ?_)
      rcases h y hy with h' | h'
      · rcases List.mem_map.mp h' with ⟨z, hz, hlink⟩
        rcases List.mem_cons.mp hz with rfl | hz'
        · exact Or.inr (hlink ▸ hx)
        · exact Or.inl (hlink ▸ List.mem_map_of_mem Listing.link hz')
      · exact Or.inr h'
    · simp only [hx, if_false]
      congr 1
      refine dropDupLinksAux_append_absorb xs l₂ (x.link :: seen) (fun y hy => ?_)
      rcases h y hy with h' | h'
      · rcases List.mem_map.mp h' with ⟨z, hz, hlink⟩
        rcases List.mem_cons.mp hz with rfl | hz'
        · exact Or.inr (by simp [hlink])
        · exact Or.inl (hlink ▸ List.mem_map_of_mem Listing.link hz')
      · exact Or.inr (List.mem_cons_of_mem _ h')

theorem dropDupLinksAux_eq_self : ∀ (l : List Listing) (seen : List String),
    (l.map Listing.link).Nodup → (∀ x ∈ l, x.link ∉ seen) →
    dropDupLinksAux seen l = l
  | [], _, _, _ => rfl
  | x :: xs, seen, hnodup, hseen => by
    unfold dropDupLinksAux
    simp only [hseen x (by simp), if_false]
    congr 1
    simp only [List.map_cons, List.nodup_cons] at hnodup
    refine dropDupLinksAux_eq_self xs (x.link :: seen) hnodup.2 (fun y hy => ?_)
    intro h
    rcases List.mem_cons.mp h with h' | h'
    · exact hnodup.1 (h' ▸ List.mem_map_of_mem Listing.link hy)
    · exact hseen y (List.mem_cons_of_mem x hy) h'

theorem dropDupLinks_eq_self {l : List Listing} (h : (l.map Listing.link).Nodup) :
    dropDupLinks l = l :=
  dropDupLinksAux_eq_self l [] h (by simp)

/-! ### The ranking order is a total preorder on candidate indices -/

theorem rankRel_iff_rankRelQ {s : ℕ → Frac} (hden : ∀ i, 0 < (s i).den)
    (i j : ℕ) : rankRel s i j ↔ rankRelQ s i j := by
  unfold rankRel rankRelQ
  rw [Frac.blt_iff (hden j) (hden i), Frac.beq_iff (hden i) (hden j)]

theorem rankRelQ_total (s : ℕ → Frac) (i j : ℕ) : rankRelQ s i j ∨ rankRelQ s j i := by
  unfold rankRelQ
  rcases lt_trichotomy ((s i).toRat) ((s j).toRat) with h | h | h
  · exact Or.inr (Or.inl h)
  · rcases Nat.le_total i j with hij | hij
    · exact Or.inl (Or.inr ⟨h, hij⟩)
    · exact Or.inr (Or.inr ⟨h.symm, hij⟩)
  · exact Or.inl (Or.inl h)

theorem rankRelQ_trans (s : ℕ → Frac) (i j k : ℕ)
    (h₁ : rankRelQ s i j) (h₂ : rankRelQ s j k) : rankRelQ s i k := by
  unfold rankRelQ at *
  rcases h₁ with h₁ | ⟨he₁, hle₁⟩
  · rcases h₂ with h₂ | ⟨he₂, hle₂⟩
    · exact Or.inl (h₂.trans h₁)
    · exact Or.inl (he₂ ▸ h₁)
  · rcases h₂ with h₂ | ⟨he₂, hle₂⟩
    · exact Or.inl (lt_of_lt_of_eq h₂ he₁.symm)
    · exact Or.inr ⟨he₁.trans he₂, hle₁.trans hle₂⟩

theorem rankRel_total {s : ℕ → Frac} (hden : ∀ i, 0 < (s i).den) (i j : ℕ) :
    rankRel s i j ∨ rankRel s j i := by
  rw [rankRel_iff_rankRelQ hden, rankRel_iff_rankRelQ hden]
  exact rankRelQ_total s i j

theorem rankRel_trans {s : ℕ → Frac} (hden : ∀ i, 0 < (s i).den) (i j k : ℕ)
    (h₁ : rankRel s i j) (h₂ : rankRel s j k) : rankRel s i k := by
  rw [rankRel_iff_rankRelQ hden] at *
  exact rankRelQ_trans s i j k h₁ h₂

/-! ### Structure of the surviving filter stages -/

theorem locationStage_subset {df1 : List Listing} {loc : String} {x : Listing}
    (h : x ∈ locationStage df1 loc) : x ∈ df1 := by
  unfold locationStage at h
  have h' := (dropDupLinks_sublist _).subset h
  rcases List.mem_append.mp h' with h'' | h''
  · exact (List.mem_filter.mp h'').1
  · exact (List.mem_filter.mp h'').1

theorem locationStage_links_nodup (df1 : List Listing) (loc : String) :
    ((locationStage df1 loc).map Listing.link).Nodup :=
  dropDupLinks_links_nodup _

theorem priceStage_sublist (df2 : List Listing) (p : ℚ) :
    (priceStage df2 p).Sublist df2 :=
  List.filter_sublist df2

theorem priceStage_links_nodup (df1 : List Listing) (loc : String) (p : ℚ) :
    ((priceStage (locationStage df1 loc) p).map Listing.link).Nodup :=
  (locationStage_links_nodup df1 loc).sublist
    ((priceStage_sublist _ p).map Listing.link)

theorem mem_sizeStage {df : List Listing} {s : Int} {x : Listing}
    (h : x ∈ sizeStage df (some s)) : x ∈ df ∧ x.size = s := by
  have h' := List.mem_filter.mp h
  refine ⟨h'.1, ?_⟩
  simpa [optSizeEq] using h'.2

theorem mem_priceStage {df2 : List Listing} {p : ℚ} {x : Listing}
    (h : x ∈ priceStage df2 p) : x ∈ df2 ∧ x.price ≤ p * (21 / 20 : ℚ) := by
  have h' := List.mem_filter.mp h
  exact ⟨h'.1, (priceLe_iff x.price p).mp h'.2⟩

/-- An exact-location match whose link is new survives the concat-and-dedup
union (exact matches are concatenated first, so it is the first occurrence of
its link). -/
theorem exact_mem_locationStage {df1 : List Listing} {loc : String} {x : Listing}
    (hnd : (df1.map Listing.link).Nodup) (hx : x ∈ df1)
    (hloc : x.location = pyLower loc) : x ∈ locationStage df1 loc := by
  have hxe : x ∈ df1.filter (fun l => l.location == pyLower loc) :=
    List.mem_filter.mpr ⟨hx, by simp [hloc]⟩
  rcases List.append_of_mem hxe with ⟨e₁, e₂, hsplit⟩
  have hnde : ((e₁ ++ x :: e₂).map Listing.link).Nodup := by
    rw [← hsplit]
    exact hnd.sublist ((List.filter_sublist df1).map Listing.link)
  have hx1 : x.link ∉ e₁.map Listing.link := by
    simp only [List.map_append, List.map_cons] at hnde
    have := (List.nodup_append.mp hnde).2.2
    intro hmem
    exact this hmem (by simp)
  show x ∈ dropDupLinks (df1.filter (fun l => l.location == pyLower loc)
    ++ df1.filter (fun l => locContains l.location (pyLower loc)))
  rw [hsplit, List.append_assoc]
  exact mem_dropDupLinksAux_of_first e₁ _ x [] (by simp) hx1

/-! ### Characterizing the branch that produced a result -/

theorem find_table_branch {idf : ℕ → ℕ → ℚ} {df : List Listing} {s : Int} {p : ℚ}
    {loc : String} {ua : List String} {rows : List ResultRow}
    (h : find_similar_properties idf df (some s) (some p) (some loc) ua = .table rows) :
    priceStage (locationStage (sizeStage df (some s)) loc) p ≠ [] ∧
    vocabOf (corpusOf (priceStage (locationStage (sizeStage df (some s)) loc) p) ua) ≠ [] ∧
    rows = ((dropDupLinks (rankedListings idf
      (priceStage (locationStage (sizeStage df (some s)) loc) p) ua)).take 5).map
        projectRow := by
  simp only [find_similar_properties] at h
  by_cases h1 : sizeStage df (some s) = []
  · simp [h1] at h
  · simp only [h1, if_false] at h
    by_cases h2 : locationStage (sizeStage df (some s)) loc = []
    · simp [h2] at h
    · simp only [h2, if_false] at h
      by_cases h3 : priceStage (locationStage (sizeStage df (some s)) loc) p = []
      · simp [h3] at h
      · simp only [h3, if_false] at h
        by_cases h4 : vocabOf (corpusOf
            (priceStage (locationStage (sizeStage df (some s)) loc) p) ua) = []
        · simp [h4] at h
        · simp only [h4, if_false, PyResult.table.injEq] at h
          exact ⟨h3, h4, h.symm⟩

/-! ### Structure of the ranked output -/

theorem ranked_dedup_absorb (idf : ℕ → ℕ → ℚ) (df3 : List Listing)
    (ua : List String) (hne : df3 ≠ []) :
    dropDupLinks (rankedListings idf df3 ua) =
      dropDupLinks
        (((List.insertionSort (rankRel (candScore idf df3 ua))
            (List.range df3.length)).take 10).map (fun i => df3.getD i dummyListing)) := by
  unfold rankedListings rankedIndices
  rw [List.map_append, List.map_replicate]
  unfold dropDupLinks
  apply dropDupLinksAux_append_absorb
  intro y hy
  rcases List.eq_of_mem_replicate hy with rfl
  have hk : 10 - df3.length ≠ 0 := by
    intro h0
    rw [h0] at hy
    simp at hy
  have hm10 : df3.length ≤ 10 := by omega
  have hmpos : 0 < df3.length := List.length_pos.mpr hne
  have htake : (List.insertionSort (rankRel (candScore idf df3 ua))
      (List.range df3.length)).take 10
      = List.insertionSort (rankRel (candScore idf df3 ua)) (List.range df3.length) :=
    List.take_of_length_le (by rw [List.length_insertionSort, List.length_range]; exact hm10)
  have hmem : df3.length - 1 ∈ List.insertionSort (rankRel (candScore idf df3 ua))
      (List.range df3.length) :=
    (List.mem_insertionSort _).mpr (List.mem_range.mpr (by omega))
  left
  rw [htake]
  exact List.mem_map_of_mem Listing.link (List.mem_map_of_mem _ hmem)

theorem final_listings_spec (idf : ℕ → ℕ → ℚ) (df3 : List Listing)
    (ua : List String) (hne : df3 ≠ []) :
    ∃ idxs : List ℕ,
      idxs.Pairwise (rankRel (candScore idf df3 ua)) ∧ idxs.Nodup ∧
      (∀ i ∈ idxs, i < df3.length) ∧
      (dropDupLinks (rankedListings idf df3 ua)).take 5
        = idxs.map (fun i => df3.getD i dummyListing) := by
  have hden := candScore_den_pos idf df3 ua
  haveI : IsTotal ℕ (rankRel (candScore idf df3 ua)) := ⟨rankRel_total hden⟩
  haveI : IsTrans ℕ (rankRel (candScore idf df3 ua)) := ⟨rankRel_trans hden⟩
  have hsorted : (List.insertionSort (rankRel (candScore idf df3 ua))
      (List.range df3.length)).Sorted (rankRel (candScore idf df3 ua)) :=
    List.sorted_insertionSort _ _
  have hnodup : (List.insertionSort (rankRel (candScore idf df3 ua))
      (List.range df3.length)).Nodup :=
    ((List.perm_insertionSort _ _).nodup_iff).mpr (List.nodup_range _)
  have hsub1 : ((dropDupLinks (rankedListings idf df3 ua)).take 5).Sublist
      (((List.insertionSort (rankRel (candScore idf df3 ua))
        (List.range df3.length)).take 10).map (fun i => df3.getD i dummyListing)) := by
    rw [ranked_dedup_absorb idf df3 ua hne]
    exact (List.take_sublist 5 _).trans (dropDupLinks_sublist _)
  rcases List.sublist_map_iff.mp hsub1 with ⟨idxs, hidxs, hmap⟩
  have hidxs' : idxs.Sublist (List.insertionSort (rankRel (candScore idf df3 ua))
      (List.range df3.length)) :=
    hidxs.trans (List.take_sublist 10 _)
  refine ⟨idxs, hsorted.sublist hidxs', hnodup.sublist hidxs', ?_, hmap⟩
  intro i hi
  exact List.mem_range.mp ((List.mem_insertionSort _).mp (hidxs'.subset hi))

/-! ## Claim theorems -/

/-- C1: for every listing `L` and query, if `L` survives the Structured
Filter (the three filtering stages of `find_similar_properties`), then
`L.size` equals the query size exactly and `L.price ≤ max_price * 1.05`;
the price bound is closed (`≤`), not strict. -/
theorem structured_filter_size_price_sound (df : List Listing) (s : Int) (p : ℚ)
    (loc : String) (L : Listing)
    (h : L ∈ priceStage (locationStage (sizeStage df (some s)) loc) p) :
    L.size = s ∧ L.price ≤ p * (21 / 20 : ℚ) := by
  obtain ⟨h2, hle⟩ := mem_priceStage h
  exact ⟨(mem_sizeStage (locationStage_subset h2)).2, hle⟩

/-- Witness for C1 at a listing priced exactly at the closed bound
`120 × 1.05 = 126`. -/
theorem structured_filter_size_price_sound_witness :
    wListingGym.size = 2 ∧ wListingGym.price ≤ 120 * (21 / 20 : ℚ) :=
  structured_filter_size_price_sound [wListingGym] 2 120 "mumbai" wListingGym
    (by decide)

/-- C2: whenever retrieval returns a table, its rows are (projections of)
candidates drawn from the filter-stage survivors at distinct positions, listed
in ascending L2 distance to the query's TF-IDF vector — equivalently
descending `toRat` score, `rankRelQ` (the corpus is the candidates' joined
amenity strings with the query's joined string as last document) — with ties
broken by original filter order (first occurrence). -/
theorem text_ranker_orders_by_distance (idf : ℕ → ℕ → ℚ) (df : List Listing)
    (s : Int) (p : ℚ) (loc : String) (ua : List String) (rows : List ResultRow)
    (h : find_similar_properties idf df (some s) (some p) (some loc) ua = .table rows) :
    ∃ idxs : List ℕ,
      idxs.Pairwise
        (rankRelQ (candScore idf (priceStage (locationStage (sizeStage df (some s)) loc) p) ua)) ∧
      idxs.Nodup ∧
      (∀ i ∈ idxs, i < (priceStage (locationStage (sizeStage df (some s)) loc) p).length) ∧
      rows = idxs.map (fun i =>
        projectRow ((priceStage (locationStage (sizeStage df (some s)) loc) p).getD i
          dummyListing)) := by
  obtain ⟨hne, -, hrows⟩ := find_table_branch h
  obtain ⟨idxs, hpair, hnodup, hbound, hmap⟩ :=
    final_listings_spec idf (priceStage (locationStage (sizeStage df (some s)) loc) p) ua hne
  refine ⟨idxs, ?_, hnodup, hbound, ?_⟩
  · exact hpair.imp (fun {a b} hr =>
      (rankRel_iff_rankRelQ
        (candScore_den_pos idf (priceStage (locationStage (sizeStage df (some s)) loc) p) ua)
        a b).mp hr)
  · rw [hrows, hmap, List.map_map]
    rfl

/-- Witness for C2: a one-candidate run that returns a table. -/
theorem text_ranker_orders_by_distance_witness :
    ∃ idxs : List ℕ,
      idxs.Pairwise
        (rankRelQ (candScore idfConst
          (priceStage (locationStage (sizeStage [wListingPool] (some 2)) "mumbai") 100)
          ["pool"])) ∧
      idxs.Nodup ∧
      (∀ i ∈ idxs,
        i < (priceStage (locationStage (sizeStage [wListingPool] (some 2)) "mumbai")
          100).length) ∧
      [projectRow wListingPool] = idxs.map (fun i =>
        projectRow ((priceStage (locationStage (sizeStage [wListingPool] (some 2)) "mumbai")
          100).getD i dummyListing)) :=
  text_ranker_orders_by_distance idfConst [wListingPool] 2 100 "mumbai" ["pool"]
    [projectRow wListingPool] (by decide)

/-- C3: whenever retrieval returns a table, there are at most 5 rows, no
identifier (`link`) appears twice, and every row is the fixed seven-field
projection of a listing that survived the filter stage (so the derived
`amenities_str` column is never exposed; the ranker was asked for `2K = 10`
candidates, deduplication by `link` runs before `head(5)`). -/
theorem orchestrator_dedup_topk_projection (idf : ℕ → ℕ → ℚ) (df : List Listing)
    (s : Int) (p : ℚ) (loc : String) (ua : List String) (rows : List ResultRow)
    (h : find_similar_properties idf df (some s) (some p) (some loc) ua = .table rows) :
    rows.length ≤ 5 ∧ (rows.map ResultRow.link).Nodup ∧
    ∃ ls : List Listing,
      (∀ x ∈ ls, x ∈ priceStage (locationStage (sizeStage df (some s)) loc) p) ∧
      rows = ls.map projectRow := by
  obtain ⟨hne, -, hrows⟩ := find_table_branch h
  obtain ⟨idxs, -, -, hbound, hmap⟩ :=
    final_listings_spec idf (priceStage (locationStage (sizeStage df (some s)) loc) p) ua hne
  refine ⟨?_, ?_, ?_⟩
  · rw [hrows, List.length_map]
    exact (List.length_take_le 5 _)
  · have hlink : rows.map ResultRow.link
        = ((dropDupLinks (rankedListings idf
            (priceStage (locationStage (sizeStage df (some s)) loc) p) ua)).take 5).map
          Listing.link := by
      rw [hrows, List.map_map]
      rfl
    rw [hlink]
    exact (dropDupLinks_links_nodup _).sublist
      ((List.take_sublist 5 _).map Listing.link)
  · refine ⟨(dropDupLinks (rankedListings idf
        (priceStage (locationStage (sizeStage df (some s)) loc) p) ua)).take 5,
      ?_, hrows⟩
    intro x hx
    rw [hmap] at hx
    rcases List.mem_map.mp hx with ⟨i, hi, rfl⟩
    have hlt := hbound i hi
    rw [List.getD_eq_getElem _ dummyListing hlt]
    exact List.getElem_mem hlt

/-- Witness for C3 at a concrete two-listing run. -/
theorem orchestrator_dedup_topk_projection_witness :
    ([projectRow wListingGym, projectRow wListingPool] : List ResultRow).length ≤ 5 ∧
    (([projectRow wListingGym, projectRow wListingPool].map ResultRow.link)).Nodup ∧
    ∃ ls : List Listing,
      (∀ x ∈ ls, x ∈ priceStage (locationStage
        (sizeStage [wListingGym, wListingPool] (some 2)) "mumbai") 126) ∧
      [projectRow wListingGym, projectRow wListingPool] = ls.map projectRow :=
  orchestrator_dedup_topk_projection idfConst [wListingGym, wListingPool] 2 126 "mumbai"
    ["gym"] [projectRow wListingGym, projectRow wListingPool] (by decide)

/-- C4: the location stage keeps the union of exact-location matches and
substring-location matches (exact matches concatenated first, deduplicated by
`link`, first occurrence winning); consequently — under the Listing Store
invariant that identifiers are unique — every exact match is in the final
location-matched set, and each such listing appears exactly once. -/
theorem location_union_exact_subset_once (df1 : List Listing) (loc : String)
    (L : Listing) (hnd : (df1.map Listing.link).Nodup)
    (hL : L ∈ df1.filter (fun l => l.location == pyLower loc)) :
    L ∈ locationStage df1 loc ∧ (locationStage df1 loc).count L = 1 := by
  have hmemdf := (List.mem_filter.mp hL).1
  have hloc : L.location = pyLower loc := by
    simpa using (List.mem_filter.mp hL).2
  have hmem := exact_mem_locationStage hnd hmemdf hloc
  refine ⟨hmem, ?_⟩
  have hnodup : (locationStage df1 loc).Nodup :=
    (locationStage_links_nodup df1 loc).of_map _
  exact List.count_eq_one_of_mem hnodup hmem

/-- Witness for C4: an exact match (query differs in case only) in a
two-listing store. -/
theorem location_union_exact_subset_once_witness :
    wListingGym ∈ locationStage [wListingGym, wListingPool] "Mumbai" ∧
    (locationStage [wListingGym, wListingPool] "Mumbai").count wListingGym = 1 :=
  location_union_exact_subset_once [wListingGym, wListingPool] "Mumbai" wListingGym
    (by decide) (by decide)

/-- C5: the filter steps run in strict order — size, then location, then
price — each short-circuiting with an empty result; the `no-size-match`
message is produced exactly when no listing matches the query size, the
`no-location-match` message exactly when the size stage was non-empty but the
location union is empty, and the `no-price-match` message exactly when the
location stage was non-empty but no surviving listing lies in the 5% price
band (the spec's reason codes denote the source's literal message strings). -/
theorem filter_short_circuit_reasons (idf : ℕ → ℕ → ℚ) (df : List Listing)
    (s : Int) (p : ℚ) (loc : String) (ua : List String) :
    (find_similar_properties idf df (some s) (some p) (some loc) ua
        = .str "No properties found with the given size."
      ↔ sizeStage df (some s) = []) ∧
    (find_similar_properties idf df (some s) (some p) (some loc) ua
        = .str "No properties found in the specified location."
      ↔ sizeStage df (some s) ≠ [] ∧ locationStage (sizeStage df (some s)) loc = []) ∧
    (find_similar_properties idf df (some s) (some p) (some loc) ua
        = .str "No properties found within the price range."
      ↔ sizeStage df (some s) ≠ [] ∧ locationStage (sizeStage df (some s)) loc ≠ [] ∧
        priceStage (locationStage (sizeStage df (some s)) loc) p = []) := by
  simp only [find_similar_properties]
  by_cases h1 : sizeStage df (some s) = []
  · simp [h1]
  · simp only [h1, if_false]
    by_cases h2 : locationStage (sizeStage df (some s)) loc = []
    · simp [h1, h2]
    · simp only [h2, if_false]
      by_cases h3 : priceStage (locationStage (sizeStage df (some s)) loc) p = []
      · simp [h1, h2, h3]
      · simp only [h3, if_false]
        by_cases h4 : vocabOf (corpusOf
            (priceStage (locationStage (sizeStage df (some s)) loc) p) ua) = []
        · simp [h1, h2, h3, h4]
        · simp [h1, h2, h3, h4]

/-- C6 (amended): when `extract_keywords_from_text` signals failure with the
all-`None` extraction, the `__main__` flow forwards it to
`find_similar_properties` anyway (no "could not parse query" check exists);
inside the filter, the pandas comparison `df["size"] == None` is elementwise
`False`, so the size stage is empty and the result is the `no-size-match`
message — for every store. -/
theorem parse_failure_forwarded (idf : ℕ → ℕ → ℚ) (df : List Listing) :
    mainRetrieve idf df parseFailureExtraction
      = find_similar_properties idf df none none none [] ∧
    mainRetrieve idf df parseFailureExtraction
      = .str "No properties found with the given size." := by
  refine ⟨rfl, ?_⟩
  have hempty : sizeStage df none = [] := by
    simp [sizeStage, optSizeEq]
  show find_similar_properties idf df none none none [] = _
  simp [find_similar_properties, hempty]

/-- Counterexample for C6: on a parse failure the orchestrator does not
return the claimed "could not parse query" empty result; the all-`None` query
reaches the filter and produces the size message instead. -/
theorem parse_failure_counterexample :
    mainRetrieve idfConst [wListingGym] parseFailureExtraction
      = .str "No properties found with the given size." ∧
    PyResult.str "No properties found with the given size."
      ≠ .str "could not parse query" := by
  constructor
  · decide
  · decide

/-- C10: the result type of `find_similar_properties` depends on the branch
taken — each of the three empty-filter branches returns a bare human-readable
string (no machine-readable reason code), the empty-vocabulary branch raises,
and only the success branch returns a structured table. -/
theorem result_shape_by_branch (idf : ℕ → ℕ → ℚ) (df : List Listing)
    (s : Int) (p : ℚ) (loc : String) (ua : List String) :
    (∃ msg, find_similar_properties idf df (some s) (some p) (some loc) ua = .str msg ∧
      (msg = "No properties found with the given size." ∨
       msg = "No properties found in the specified location." ∨
       msg = "No properties found within the price range.")) ∨
    find_similar_properties idf df (some s) (some p) (some loc) ua
      = .exn "ValueError: empty vocabulary" ∨
    (∃ rows, find_similar_properties idf df (some s) (some p) (some loc) ua
      = .table rows) := by
  simp only [find_similar_properties]
  by_cases h1 : sizeStage df (some s) = []
  · exact Or.inl ⟨_, by simp [h1], Or.inl rfl⟩
  · simp only [h1, if_false]
    by_cases h2 : locationStage (sizeStage df (some s)) loc = []
    · exact Or.inl ⟨_, by simp [h2], Or.inr (Or.inl rfl)⟩
    · simp only [h2, if_false]
      by_cases h3 : priceStage (locationStage (sizeStage df (some s)) loc) p = []
      · exact Or.inl ⟨_, by simp [h3], Or.inr (Or.inr rfl)⟩
      · simp only [h3, if_false]
        by_cases h4 : vocabOf (corpusOf
            (priceStage (locationStage (sizeStage df (some s)) loc) p) ua) = []
        · exact Or.inr (Or.inl (by simp [h4]))
        · exact Or.inr (Or.inr
            ⟨((dropDupLinks (rankedListings idf
                (priceStage (locationStage (sizeStage df (some s)) loc) p) ua)).take 5).map
              projectRow, by rw [if_neg h4]⟩)

/-- C8 (amended): when the three filter stages are non-empty but the joined
amenity texts of the candidates and of the query contain no tokens, the
vectorizer raises an uncaught `ValueError` ("empty vocabulary") — retrieval
ends in an exception, not in an `EmptyResult` with a reason code. -/
theorem empty_vocab_raises (idf : ℕ → ℕ → ℚ) (df : List Listing)
    (s : Int) (p : ℚ) (loc : String) (ua : List String)
    (hne : priceStage (locationStage (sizeStage df (some s)) loc) p ≠ [])
    (hvocab : vocabOf (corpusOf
      (priceStage (locationStage (sizeStage df (some s)) loc) p) ua) = []) :
    find_similar_properties idf df (some s) (some p) (some loc) ua
      = .exn "ValueError: empty vocabulary" := by
  have h1 : sizeStage df (some s) ≠ [] := by
    intro h
    apply hne
    rw [h]
    rfl
  have h2 : locationStage (sizeStage df (some s)) loc ≠ [] := by
    intro h
    apply hne
    rw [h]
    rfl
  simp [find_similar_properties, h1, h2, hne, hvocab]

/-- Witness for C8's amended statement on a store whose single surviving
candidate has no amenities and a query with no amenities (empty corpus
vocabulary). -/
theorem empty_vocab_raises_witness :
    find_similar_properties idfConst [wListingNoAmen] (some 2) (some 100) (some "mumbai") []
      = .exn "ValueError: empty vocabulary" :=
  empty_vocab_raises idfConst [wListingNoAmen] 2 100 "mumbai" []
    (by decide) (by decide)

/-- Counterexample for C8: at a concrete empty-vocabulary input the code's
result is an uncaught exception value, not a legitimate empty `ResultSet`
carrying the reason code `no-amenity-vocabulary` (no such reason string
exists in the code). -/
theorem empty_vocab_counterexample :
    find_similar_properties idfConst [wListingNoAmen] (some 2) (some 100) (some "mumbai")
        ["x"]
      = .exn "ValueError: empty vocabulary" ∧
    PyResult.exn "ValueError: empty vocabulary" ≠ .str "no-amenity-vocabulary" := by
  constructor
  · decide
  · decide

/-- C9 (amended): location matching is case-insensitive on the query side —
the query location is lowercased and compared against the store's (lowercase,
by the loader contract) locations, so a query location that equals a stored
location after lowercasing still matches at the location stage.  (Whitespace
is NOT normalized anywhere; see the counterexample.) -/
theorem location_query_case_insensitive (df1 : List Listing) (q : String)
    (L : Listing) (hnd : (df1.map Listing.link).Nodup) (hmem : L ∈ df1)
    (hcase : L.location = pyLower q) : L ∈ locationStage df1 q :=
  exact_mem_locationStage hnd hmem hcase

/-- Witness for C9's amended statement: the query `"MuMbAi"` differs from the
stored `"mumbai"` only in letter case and still matches. -/
theorem location_query_case_insensitive_witness :
    wListingGym ∈ locationStage [wListingGym] "MuMbAi" :=
  location_query_case_insensitive [wListingGym] "MuMbAi" wListingGym
    (by decide) (by decide) (by decide)

/-- Counterexample for C9: matching is not whitespace-normalized — a query
location with one trailing space (otherwise identical to the stored
`"mumbai"`) matches nothing at the location stage, and the whole retrieval
returns the location message. -/
theorem location_whitespace_counterexample :
    wListingGym.location = "mumbai" ∧
    locationStage [wListingGym] "mumbai " = [] ∧
    find_similar_properties idfConst [wListingGym] (some 2) (some 126) (some "mumbai ")
        ["gym"]
      = .str "No properties found in the specified location." := by
  refine ⟨rfl, by decide, by decide⟩

/-! ### The zero-amenity query -/

theorem map_getD_range {α : Type} (l : List α) (d : α) :
    ∀ (k : ℕ), k ≤ l.length → (List.range k).map (fun i => l.getD i d) = l.take k
  | 0, _ => by simp
  | k + 1, hk => by
    have hk' : k < l.length := hk
    rw [List.range_succ, List.map_append,
      map_getD_range l d k (Nat.le_of_lt hk')]
    simp only [List.map_cons, List.map_nil]
    rw [List.getD_eq_getElem l d hk', List.take_succ,
      List.getElem?_eq_getElem hk']
    simp

theorem candScore_zero_query (idf : ℕ → ℕ → ℚ) (df3 : List Listing)
    (ua : List String) (hidf : ∀ n k, 0 < idf n k)
    (hq : tokenize (joinAmen ua) = []) (i : ℕ) (hi : i < df3.length)
    (hc : tokenize (joinAmen (df3[i].amenities)) ≠ []) :
    candScore idf df3 ua i = ⟨1, 4⟩ := by
  have hlen : i < (docTokens df3).length := by simpa [docTokens] using hi
  have hdoc : (docTokens df3).getD i [] = tokenize (joinAmen df3[i].amenities) := by
    rw [List.getD_eq_getElem _ _ hlen]
    simp [docTokens]
  unfold candScore
  rw [hdoc]
  have hqz : (innerW idf (corpusOf df3 ua) (tokenize (joinAmen ua))
      (tokenize (joinAmen ua))).num = 0 := by
    apply Frac.sum_num_eq_zero
    intro f hf
    rcases List.mem_map.mp hf with ⟨t, -, rfl⟩
    simp [tfidfWt, Frac.mul, Frac.ofNat, hq]
  have hqz' : (innerW idf (corpusOf df3 ua) (tokenize (joinAmen ua))
      (tokenize (joinAmen ua))).isZero = true := by
    simp [Frac.isZero, hqz]
  have hcmem : tokenize (joinAmen df3[i].amenities) ∈ corpusOf df3 ua := by
    unfold corpusOf
    exact List.mem_append_left _
      (List.mem_map_of_mem _ (List.getElem_mem hi))
  obtain ⟨t₀, ht₀⟩ := List.exists_mem_of_ne_nil _ hc
  have hcz : 0 < (innerW idf (corpusOf df3 ua)
      (tokenize (joinAmen df3[i].amenities)) (tokenize (joinAmen df3[i].amenities))).num := by
    apply Frac.sum_num_pos
    · intro f hf
      rcases List.mem_map.mp hf with ⟨t, -, rfl⟩
      have hdp := tfidfWt_den_pos idf (corpusOf df3 ua)
        (tokenize (joinAmen df3[i].amenities)) t
      exact ⟨by simpa [Frac.mul] using
          mul_self_nonneg (tfidfWt idf (corpusOf df3 ua)
            (tokenize (joinAmen df3[i].amenities)) t).num,
        by simpa [Frac.mul] using mul_pos hdp hdp⟩
    · have htv : t₀ ∈ vocabOf (corpusOf df3 ua) :=
        List.mem_dedup.mpr (List.mem_flatten.mpr ⟨_, hcmem, ht₀⟩)
      refine ⟨_, List.mem_map_of_mem _ htv, ?_⟩
      have hcount : 0 < ((tokenize (joinAmen df3[i].amenities)).count t₀ : Int) := by
        exact_mod_cast List.count_pos_iff.mpr ht₀
      have hidfnum : 0 < (idf (corpusOf df3 ua).length
          (docFreq (corpusOf df3 ua) t₀)).num :=
        Rat.num_pos.mpr (hidf _ _)
      have hk : 0 < ((tokenize (joinAmen df3[i].amenities)).count t₀ : Int)
          * (idf (corpusOf df3 ua).length (docFreq (corpusOf df3 ua) t₀)).num :=
        mul_pos hcount hidfnum
      simpa [tfidfWt, Frac.mul, Frac.ofNat, Frac.ofRat] using mul_pos hk hk
  have hcz' : (innerW idf (corpusOf df3 ua)
      (tokenize (joinAmen df3[i].amenities))
      (tokenize (joinAmen df3[i].amenities))).isZero = false := by
    simp [Frac.isZero]
    exact ne_of_gt hcz
  unfold simScore
  rw [hqz', hcz']
  simp

/-- C7 (amended): for a query with an empty amenity sequence whose filter
stage is non-empty, **provided every surviving candidate's joined amenity
string has at least one token** (and the idf weighting is positive, as
sklearn's is), all candidates receive the same score (their normalized rows
are unit vectors, all at squared distance 1 from the zero query vector) and
the returned table is exactly the first five filter-stage survivors in filter
order.  Without that proviso the claim is false: a candidate with no amenity
tokens has a zero row at distance 0 and jumps ahead (see the
counterexample). -/
theorem zero_amenity_query_filter_order (idf : ℕ → ℕ → ℚ) (df : List Listing)
    (s : Int) (p : ℚ) (loc : String) (hidf : ∀ n k, 0 < idf n k)
    (hne : priceStage (locationStage (sizeStage df (some s)) loc) p ≠ [])
    (hcand : ∀ l ∈ priceStage (locationStage (sizeStage df (some s)) loc) p,
      tokenize (joinAmen l.amenities) ≠ []) :
    find_similar_properties idf df (some s) (some p) (some loc) []
      = .table (((priceStage (locationStage (sizeStage df (some s)) loc) p).take 5).map
          projectRow) ∧
    ∀ i j, i < (priceStage (locationStage (sizeStage df (some s)) loc) p).length →
      j < (priceStage (locationStage (sizeStage df (some s)) loc) p).length →
      (candScore idf (priceStage (locationStage (sizeStage df (some s)) loc) p) [] i).toRat
        = (candScore idf (priceStage (locationStage (sizeStage df (some s)) loc) p) []
            j).toRat := by
  set F := priceStage (locationStage (sizeStage df (some s)) loc) p with hF
  have hq : tokenize (joinAmen ([] : List String)) = [] := rfl
  have hm : 0 < F.length := List.length_pos.mpr hne
  have hscore : ∀ i, i < F.length → candScore idf F [] i = ⟨1, 4⟩ := by
    intro i hi
    exact candScore_zero_query idf F [] hidf hq i hi (hcand F[i] (List.getElem_mem hi))
  -- every pair of positions is tied, so the sort leaves `range` unchanged
  have hsorted : (List.range F.length).Sorted (rankRel (candScore idf F [])) := by
    refine (List.pairwise_lt_range F.length).imp_of_mem ?_
    intro a b ha hb hab
    right
    constructor
    · rw [hscore a (List.mem_range.mp ha), hscore b (List.mem_range.mp hb)]
      decide
    · exact Nat.le_of_lt hab
  have hins : List.insertionSort (rankRel (candScore idf F [])) (List.range F.length)
      = List.range F.length := hsorted.insertionSort_eq
  -- the ranked listing list is the first `min 10 m` survivors plus padding
  have hlast : F.getD (F.length - 1) dummyListing = F.get (Fin.mk (F.length - 1) (by omega)) :=
    List.getD_eq_getElem F dummyListing (by omega)
  have hranked : rankedListings idf F []
      = F.take (min 10 F.length)
        ++ List.replicate (10 - F.length) (F.getD (F.length - 1) dummyListing) := by
    unfold rankedListings rankedIndices
    rw [hins, List.take_range, List.map_append, List.map_replicate,
      map_getD_range F dummyListing (min 10 F.length) (min_le_right 10 F.length)]
  have habsorb : dropDupLinks (rankedListings idf F [])
      = dropDupLinks (F.take (min 10 F.length)) := by
    rw [hranked]
    unfold dropDupLinks
    apply dropDupLinksAux_append_absorb
    intro y hy
    rcases List.eq_of_mem_replicate hy with rfl
    have hk : 10 - F.length ≠ 0 := by
      intro h0
      rw [h0] at hy
      simp at hy
    have hmin : min 10 F.length = F.length := by omega
    left
    rw [hmin, List.take_length, hlast]
    exact List.mem_map_of_mem Listing.link (List.getElem_mem (by omega))
  have hnd : ((F.take (min 10 F.length)).map Listing.link).Nodup :=
    (priceStage_links_nodup (sizeStage df (some s)) loc p).sublist
      ((List.take_sublist _ F).map Listing.link)
  have hdedup : dropDupLinks (F.take (min 10 F.length)) = F.take (min 10 F.length) :=
    dropDupLinks_eq_self hnd
  have htake5 : (F.take (min 10 F.length)).take 5 = F.take 5 := by
    rw [List.take_take]
    apply List.take_eq_take.mpr
    omega
  refine ⟨?_, ?_⟩
  · have hvocab : vocabOf (corpusOf F []) ≠ [] := by
      have hc0 : tokenize (joinAmen (F.get (Fin.mk 0 hm)).amenities) ≠ [] :=
        hcand (F.get (Fin.mk 0 hm)) (List.getElem_mem hm)
      obtain ⟨t₀, ht₀⟩ := List.exists_mem_of_ne_nil _ hc0
      have hcmem : tokenize (joinAmen (F.get (Fin.mk 0 hm)).amenities) ∈ corpusOf F [] :=
        List.mem_append_left _ (List.mem_map_of_mem _ (List.getElem_mem hm))
      exact List.ne_nil_of_mem
        (List.mem_dedup.mpr (List.mem_flatten.mpr ⟨_, hcmem, ht₀⟩))
    have h1 : sizeStage df (some s) ≠ [] := by
      intro h
      apply hne
      rw [hF, h]
      rfl
    have h2 : locationStage (sizeStage df (some s)) loc ≠ [] := by
      intro h
      apply hne
      rw [hF, h]
      rfl
    show find_similar_properties idf df (some s) (some p) (some loc) []
      = .table ((F.take 5).map projectRow)
    simp only [find_similar_properties, ← hF, h1, h2, hne, hvocab, if_false]
    rw [habsorb, hdedup, htake5]
  · intro i j hi hj
    rw [hscore i hi, hscore j hj]

/-- Witness for C7's amended statement: two candidates, both with amenity
tokens, an empty-amenity query — the table is the filter prefix and the
scores tie. -/
theorem zero_amenity_query_filter_order_witness :
    find_similar_properties idfConst [wListingGym, wListingPool] (some 2) (some 126)
        (some "mumbai") []
      = .table (((priceStage (locationStage
          (sizeStage [wListingGym, wListingPool] (some 2)) "mumbai") 126).take 5).map
            projectRow) ∧
    ∀ i j, i < (priceStage (locationStage
        (sizeStage [wListingGym, wListingPool] (some 2)) "mumbai") 126).length →
      j < (priceStage (locationStage
        (sizeStage [wListingGym, wListingPool] (some 2)) "mumbai") 126).length →
      (candScore idfConst (priceStage (locationStage
        (sizeStage [wListingGym, wListingPool] (some 2)) "mumbai") 126) [] i).toRat
        = (candScore idfConst (priceStage (locationStage
            (sizeStage [wListingGym, wListingPool] (some 2)) "mumbai") 126) [] j).toRat :=
  zero_amenity_query_filter_order idfConst [wListingGym, wListingPool] 2 126 "mumbai"
    (fun _ _ => one_pos) (by decide) (by decide)

/-- Counterexample for C7 as stated: with an empty-amenity query and one
candidate whose amenity list is empty, the zero-row candidate is at distance
0 while the other is at distance 1 — the scores differ and the returned order
is NOT the filter order (`[gym, none]` becomes `[none, gym]`). -/
theorem zero_amenity_counterexample :
    find_similar_properties idfConst [wListingGym, wListingNoAmen] (some 2) (some 126)
        (some "mumbai") []
      = .table [projectRow wListingNoAmen, projectRow wListingGym] ∧
    PyResult.table [projectRow wListingNoAmen, projectRow wListingGym]
      ≠ .table (((priceStage (locationStage
          (sizeStage [wListingGym, wListingNoAmen] (some 2)) "mumbai") 126).take 5).map
            projectRow) ∧
    (candScore idfConst (priceStage (locationStage
        (sizeStage [wListingGym, wListingNoAmen] (some 2)) "mumbai") 126) [] 0).toRat
      ≠ (candScore idfConst (priceStage (locationStage
          (sizeStage [wListingGym, wListingNoAmen] (some 2)) "mumbai") 126) [] 1).toRat := by
  refine ⟨by decide, by decide, ?_⟩
  have h0 : candScore idfConst (priceStage (locationStage
      (sizeStage [wListingGym, wListingNoAmen] (some 2)) "mumbai") 126) [] 0
      = ⟨1, 4⟩ := by decide
  have h1 : candScore idfConst (priceStage (locationStage
      (sizeStage [wListingGym, wListingNoAmen] (some 2)) "mumbai") 126) [] 1
      = ⟨1, 1⟩ := by decide
  rw [h0, h1]
  norm_num [Frac.toRat]
